import Mathlib

/-!
# Camera rig geometry and stereo-pair discovery

A shallow embedding of `ze_cameras/src/camera_rig.cpp` (constructor, `getSubRig`,
`cameraRigFromYaml`, `identifyStereoPairsInRig`) together with the properties of the
specification that concern it.

Conventions of the embedding:

* `real_t` is an arbitrary linearly ordered field `α`; arithmetic is exact, where the program
  rounds.  The square root used by Eigen's `norm()` is a parameter (`Externals.sqrt`).  The
  general theorems below concern which pairs are compared with the thresholds, in which order,
  and what the constructor checks; their proofs use no arithmetic on `α`.  The evaluations on
  concrete rigs are over the rationals.
* `uint32_t` loop counters are natural numbers reduced modulo `2 ^ 32` after every increment.
* A C++ call can return, throw a `std::exception`, abort on a failed glog `CHECK`, or never
  return; `Outcome` records which.
* Loops whose termination depends on the input carry a fuel argument; running out of fuel is
  `Outcome.hang`.
-/

namespace ze

/-! ## Outcomes of a call -/

/-- How a call ends: it returns a value, a `std::exception` propagates out of it, a glog `CHECK`
fails and the process aborts, or it never returns. -/
inductive Outcome (β : Type) where
  | ret (v : β)
  | thrown (what : String)
  | fatal (msg : String)
  | hang

/-- Sequencing: the continuation runs only after a normal return. -/
def Outcome.bind {β γ : Type} : Outcome β → (β → Outcome γ) → Outcome γ
  | .ret v, k => k v
  | .thrown w, _ => .thrown w
  | .fatal m, _ => .fatal m
  | .hang, _ => .hang

/-! ## Rigid transformations (minkindr `Transformation`) -/

/-- Eigen `Vector3`. -/
abbrev Vector3 (α : Type) := Fin 3 → α

/-- Eigen `Matrix3`. -/
abbrev Matrix3 (α : Type) := Matrix (Fin 3) (Fin 3) α

/-- Modelled from the spec: the `Transformation` type comes from a header that is not among the
sources.  The spec describes it as standard rigid-transform algebra, rotation plus translation,
composable and invertible; the rotation is kept as its 3x3 matrix. -/
structure Transformation (α : Type) where
  rot : Matrix3 α
  pos : Vector3 α

section Geometry

variable {α : Type} [CommRing α]

/-- The product `T1 * T2`: first apply `T2`, then `T1`. -/
def Transformation.mul (T1 T2 : Transformation α) : Transformation α :=
  ⟨T1.rot * T2.rot, T1.pos + T1.rot.mulVec T2.pos⟩

/-- The call `T.inverse()`: the rotation is inverted by transposition (conjugate quaternion), the
position becomes the rotated-back negated position. -/
def Transformation.inverse (T : Transformation α) : Transformation α :=
  ⟨T.rot.transpose, -(T.rot.transpose.mulVec T.pos)⟩

/-- The call `T.getPosition()`. -/
def Transformation.getPosition (T : Transformation α) : Vector3 α := T.pos

/-- Eigen `squaredNorm()`. -/
def squaredNorm (v : Vector3 α) : α := v 0 * v 0 + v 1 * v 1 + v 2 * v 2

end Geometry

/-! ## The camera rig -/

/-- A `Camera::Ptr` (shared pointer): `none` is the null pointer, `some a` is a handle to the
camera object stored at address `a`.  Two handles are the same shared camera exactly when they
are equal. -/
abbrev CameraPtr := Option Nat

/-- Modelled from the spec: a `StereoIndexPair`, declared in a header that is not among the
sources, is the pair `(camA, camB)` of camera indices of a stereo pair; its components are taken
to hold every value of the `uint32_t` loop counters. -/
abbrev StereoIndexPair := Nat × Nat

/-- A `StereoIndexPairs` vector. -/
abbrev StereoIndexPairs := List StereoIndexPair

/-- The data members of `CameraRig`. -/
structure CameraRig (α : Type) where
  T_C_B_ : List (Transformation α)
  cameras_ : List CameraPtr
  label_ : String
  stereo_pairs_ : StereoIndexPairs

/-- Modelled from the spec: the accessor `size()` is declared in a header that is not among the
sources; it is the number of cameras. -/
def CameraRig.size {α : Type} (rig : CameraRig α) : Nat := rig.cameras_.length

/-- Modelled from the spec: the accessor `label()`. -/
def CameraRig.label {α : Type} (rig : CameraRig α) : String := rig.label_

/-- Modelled from the spec: the accessor `stereoPairs()`. -/
def CameraRig.stereoPairs {α : Type} (rig : CameraRig α) : StereoIndexPairs := rig.stereo_pairs_

/-- Modelled from the spec: the setter `setStereoPairs(pairs)` used by the constructor. -/
def CameraRig.setStereoPairs {α : Type} (rig : CameraRig α) (pairs : StereoIndexPairs) :
    CameraRig α :=
  { rig with stereo_pairs_ := pairs }

/-- Modelled from the spec: the accessor `T_C_B(i)`, the extrinsic of camera `i`; an index out of
range is a fatal precondition violation. -/
def CameraRig.T_C_B {α : Type} (rig : CameraRig α) (i : Nat) : Outcome (Transformation α) :=
  match rig.T_C_B_.get? i with
  | some T => .ret T
  | none => .fatal "T_C_B: camera index out of range"

/-- Modelled from the spec: the accessor `atShared(i)`, bounds-checked access to the handle of
camera `i`; an index out of range is a fatal precondition violation. -/
def CameraRig.atShared {α : Type} (rig : CameraRig α) (i : Nat) : Outcome CameraPtr :=
  match rig.cameras_.get? i with
  | some c => .ret c
  | none => .fatal "atShared: camera index out of range"

/-- The class invariant the constructor checks: as many extrinsics as cameras, no null handle. -/
def CameraRig.Valid {α : Type} (rig : CameraRig α) : Prop :=
  rig.T_C_B_.length = rig.cameras_.length ∧ ∀ c ∈ rig.cameras_, c ≠ none

/-- What `camera_rig.cpp` uses and does not define. -/
structure Externals (α : Type) where
  /-- The routine `overlappingFieldOfView(rig, cam_A, cam_B)` of `camera_utils.hpp`. -/
  overlappingFieldOfView : CameraRig α → Nat → Nat → α
  /-- The square root inside Eigen's `norm()`. -/
  sqrt : α → α
  /-- Default value of the constructor argument `stereo_min_fov_overlap` (header). -/
  default_stereo_min_fov_overlap : α
  /-- Default value of the constructor argument `stereo_min_baseline` (header). -/
  default_stereo_min_baseline : α

section Baseline

variable {α : Type} [CommRing α]

/-- Eigen `norm()`: the square root of `squaredNorm()`. -/
def Externals.norm (ext : Externals α) (v : Vector3 α) : α := ext.sqrt (squaredNorm v)

/-- The baseline expression of `identifyStereoPairsInRig` (line 191), for the two extrinsics:
`(T_C_B(cam_B) * T_C_B(cam_A).inverse()).getPosition().norm()`. -/
def baseline (ext : Externals α) (T_A T_B : Transformation α) : α :=
  ext.norm (T_B.mul T_A.inverse).getPosition

end Baseline

section Rig

variable {α : Type} [LinearOrderedField α]

/-- Increment of a `uint32_t`. -/
def incr32 (i : Nat) : Nat := (i + 1) % 2 ^ 32

/-- The inner loop of `identifyStereoPairsInRig`:
`for (uint32_t cam_B = ...; cam_B < rig.size(); ++cam_B)`, started at `cam_B` with the pairs
collected so far. -/
def stereoInnerLoop (ext : Externals α) (rig : CameraRig α) (min_fov_overlap min_baseline : α)
    (cam_A : Nat) : Nat → Nat → StereoIndexPairs → Outcome StereoIndexPairs
  | 0, _, _ => .hang
  | fuel + 1, cam_B, pairs =>
    if cam_B < rig.size then
      let overlap := ext.overlappingFieldOfView rig cam_A cam_B
      (rig.T_C_B cam_B).bind fun T_B =>
      (rig.T_C_B cam_A).bind fun T_A =>
      let base := baseline ext T_A T_B
      if overlap > min_fov_overlap ∧ base > min_baseline then
        stereoInnerLoop ext rig min_fov_overlap min_baseline cam_A fuel (incr32 cam_B)
          (pairs ++ [(cam_A, cam_B)])
      else
        stereoInnerLoop ext rig min_fov_overlap min_baseline cam_A fuel (incr32 cam_B) pairs
    else .ret pairs

/-- The outer loop of `identifyStereoPairsInRig`:
`for (uint32_t cam_A = ...; cam_A < rig.size(); ++cam_A)`; every inner loop gets `innerFuel`. -/
def stereoOuterLoop (ext : Externals α) (rig : CameraRig α) (min_fov_overlap min_baseline : α)
    (innerFuel : Nat) : Nat → Nat → StereoIndexPairs → Outcome StereoIndexPairs
  | 0, _, _ => .hang
  | fuel + 1, cam_A, pairs =>
    if cam_A < rig.size then
      (stereoInnerLoop ext rig min_fov_overlap min_baseline cam_A innerFuel (incr32 cam_A)
        pairs).bind fun pairs' =>
      stereoOuterLoop ext rig min_fov_overlap min_baseline innerFuel fuel (incr32 cam_A) pairs'
    else .ret pairs

/-- The function `identifyStereoPairsInRig` run with a given amount of fuel for each loop. -/
def identifyStereoPairsInRigFuel (ext : Externals α) (fuel : Nat) (rig : CameraRig α)
    (min_fov_overlap min_baseline : α) : Outcome StereoIndexPairs :=
  stereoOuterLoop ext rig min_fov_overlap min_baseline fuel fuel 0 []

/-- The function `identifyStereoPairsInRig(rig, min_fov_overlap, min_baseline)`.  Each loop is
given `rig.size() + 1` iterations, which is what a loop that ends needs: a counter that has not
reached `rig.size()` by then has wrapped around and never will. -/
def identifyStereoPairsInRig (ext : Externals α) (rig : CameraRig α)
    (min_fov_overlap min_baseline : α) : Outcome StereoIndexPairs :=
  identifyStereoPairsInRigFuel ext (rig.size + 1) rig min_fov_overlap min_baseline

/-- The constructor `CameraRig::CameraRig(T_C_B, cameras, label, stereo_min_fov_overlap,
stereo_min_baseline)`.  The members are initialised, the two checks run, and a rig of more than
one camera gets its stereo pairs identified. -/
def CameraRig.construct (ext : Externals α) (T_C_B : List (Transformation α))
    (cameras : List CameraPtr) (label : String)
    (stereo_min_fov_overlap stereo_min_baseline : α) : Outcome (CameraRig α) :=
  let this : CameraRig α := ⟨T_C_B, cameras, label, []⟩
  if this.T_C_B_.length ≠ this.cameras_.length then
    .fatal "CHECK_EQ(T_C_B_.size(), cameras_.size())"
  else if this.cameras_.any Option.isNone then
    .fatal "CHECK_NOTNULL(cameras_[i].get())"
  else if this.size > 1 then
    (identifyStereoPairsInRig ext this stereo_min_fov_overlap stereo_min_baseline).bind
      fun pairs => .ret (this.setStereoPairs pairs)
  else .ret this

/-- The loop of `getSubRig`: `for (uint32_t i : camera_indices)`, pushing the handle and the
extrinsic of camera `i` onto the two vectors built so far. -/
def getSubRigLoop (rig : CameraRig α) :
    List Nat → List CameraPtr → List (Transformation α) →
      Outcome (List CameraPtr × List (Transformation α))
  | [], cameras, T => .ret (cameras, T)
  | i :: rest, cameras, T =>
    (rig.atShared i).bind fun c =>
    (rig.T_C_B i).bind fun T_i =>
    getSubRigLoop rig rest (cameras ++ [c]) (T ++ [T_i])

/-- The method `CameraRig::getSubRig(camera_indices, label)`: the new rig is constructed without
threshold arguments, so the constructor's defaults apply. -/
def CameraRig.getSubRig (ext : Externals α) (rig : CameraRig α) (camera_indices : List Nat)
    (label : String) : Outcome (CameraRig α) :=
  (getSubRigLoop rig camera_indices [] []).bind fun ct =>
  CameraRig.construct ext ct.2 ct.1 label
    ext.default_stereo_min_fov_overlap ext.default_stereo_min_baseline

/-- The acceptance test of `identifyStereoPairsInRig` for the pair `(a, b)`, both indices in
range. -/
def stereoAccept (ext : Externals α) (rig : CameraRig α) (min_fov_overlap min_baseline : α)
    (p : StereoIndexPair) : Bool :=
  match rig.T_C_B_.get? p.1, rig.T_C_B_.get? p.2 with
  | some T_A, some T_B =>
    decide (ext.overlappingFieldOfView rig p.1 p.2 > min_fov_overlap ∧
      baseline ext T_A T_B > min_baseline)
  | _, _ => false

/-- All index pairs `(a, b)` with `a < b < n`, `a` ascending and for each `a`, `b` ascending. -/
def allIndexPairs (n : Nat) : StereoIndexPairs :=
  (List.range n).flatMap fun a => (List.range' (a + 1) (n - (a + 1))).map fun b => (a, b)

/-- The lexicographic order on index pairs. -/
def lexLt (p q : StereoIndexPair) : Prop := p.1 < q.1 ∨ (p.1 = q.1 ∧ p.2 < q.2)

/-- The pairs the inner loop for `cam_A` appends while `cam_B` runs through `bs`. -/
def innerPairs (ext : Externals α) (rig : CameraRig α) (min_fov_overlap min_baseline : α)
    (cam_A : Nat) (bs : List Nat) : StereoIndexPairs :=
  (bs.map fun b => (cam_A, b)).filter (stereoAccept ext rig min_fov_overlap min_baseline)

end Rig

/-! ## Concrete rigs -/

/-- A concrete set of externals over the rationals: every pair of cameras overlaps by `0.6`, the
square root is the rational square root, the default thresholds are `0.7` and `0.1`. -/
def extQ : Externals ℚ where
  overlappingFieldOfView := fun _ _ _ => 3 / 5
  sqrt := Rat.sqrt
  default_stereo_min_fov_overlap := 7 / 10
  default_stereo_min_baseline := 1 / 10

/-- Camera `0` at the body origin, camera `1` displaced by `d` along the x axis, both unrotated. -/
def extrinsics2 (d : ℚ) : List (Transformation ℚ) :=
  [⟨1, ![0, 0, 0]⟩, ⟨1, ![d, 0, 0]⟩]

/-- The two-camera rig over `extrinsics2 d`, before its stereo pairs are identified. -/
def rig2 (d : ℚ) : CameraRig ℚ := ⟨extrinsics2 d, [some 0, some 1], "stereo", []⟩

/-! ## Loading a rig from a calibration file -/

/-- What `cameraRigFromYaml` calls and `camera_rig.cpp` does not define: the file system test and
the YAML library, whose document type is `Node`. -/
structure YamlExternals (Node : Type) (α : Type) where
  /-- The test `fileExists(path)` of `path_utils.hpp`. -/
  fileExists : String → Bool
  /-- The call `YAML::LoadFile(path)`: the parsed document, or an exception. -/
  LoadFile : String → Outcome Node
  /-- The conversion `doc.as<CameraRig::Ptr>()`: a rig pointer, or an exception, or an abort in
  the rig constructor it runs. -/
  asCameraRigPtr : Node → Outcome (Option (CameraRig α))

/-- The line `cameraRigFromYaml` writes with `LOG(ERROR)` when it catches an exception. -/
def loadDiagnostic (yaml_file what : String) : String :=
  "Cannot load CameraRig from file:" ++ yaml_file ++ "\n" ++ what

/-- The function `cameraRigFromYaml(yaml_file)`: the lines it logs with `LOG(ERROR)` and how the
call ends; a returned `none` is the null pointer.  The `CHECK` on `fileExists` comes first; only
the two calls inside the `try` block have their `std::exception` caught. -/
def cameraRigFromYaml {Node α : Type} (y : YamlExternals Node α) (yaml_file : String) :
    List String × Outcome (Option (CameraRig α)) :=
  if y.fileExists yaml_file then
    match (y.LoadFile yaml_file).bind y.asCameraRigPtr with
    | .ret rig => ([], .ret rig)
    | .thrown what => ([loadDiagnostic yaml_file what], .ret none)
    | .fatal msg => ([], .fatal msg)
    | .hang => ([], .hang)
  else ([], .fatal ("File does not exist: " ++ yaml_file))

/-- A file system without files; the YAML library is never reached. -/
def noFiles : YamlExternals Unit ℚ where
  fileExists := fun _ => false
  LoadFile := fun _ => .thrown "bad file"
  asCameraRigPtr := fun _ => .ret none

/-- A file system where every file exists and no file parses. -/
def badFiles : YamlExternals Unit ℚ where
  fileExists := fun _ => true
  LoadFile := fun _ => .thrown "bad file"
  asCameraRigPtr := fun _ => .ret none

/-! ## The camera simulator -/

/-- Modelled from the spec: a landmark, an identity with a position in the world frame.  The
simulator (`camera_simulator.cpp`) is not among the sources; only its test is. -/
structure Landmark (P : Type) where
  id : Nat
  position : P

/-- Modelled from the spec: the state of a `CameraSimulator`, its active landmarks, the next
fresh identity, the configured `max_num_landmarks`, and whether `initializeMap` has run. -/
structure CameraSimulator (P : Type) where
  active_landmarks : List (Landmark P)
  next_id : Nat
  max_num_landmarks : Nat
  ready : Bool

/-- Modelled from the spec: the collaborators of the simulator.  The trajectory, the rig and the
depth range are folded into `observe c t p`, the pixel at which camera `c` sees the world point
`p` from the pose at time `t`, or `none` when projection fails, the pixel is outside the image
or masked, or the depth is outside `[min_depth, max_depth]`. -/
structure SimExternals (τ P Pixel : Type) where
  numCameras : Nat
  start : τ
  observe : Nat → τ → P → Option Pixel

section Simulator

variable {τ P Pixel : Type}

/-- Modelled from the spec: a point is visible at time `t` when some camera of the rig observes
it. -/
def SimExternals.visible (env : SimExternals τ P Pixel) (t : τ) (p : P) : Bool :=
  (List.range env.numCameras).any fun c => (env.observe c t p).isSome

/-- Modelled from the spec: a simulator as constructed, before `initializeMap`. -/
def CameraSimulator.create (max_num_landmarks : Nat) : CameraSimulator P :=
  ⟨[], 0, max_num_landmarks, false⟩

/-- Modelled from the spec: the sampling loop shared by `initializeMap` and the replenishment of
`getMeasurements`.  The points drawn by the sampler are `samples`, one per attempt; sampling
stops when `max_num_landmarks` landmarks are active or the attempts are exhausted; an accepted
point gets the next fresh identity. -/
def sampleLandmarks (accept : P → Bool) (max_num_landmarks : Nat) :
    List P → List (Landmark P) → Nat → List (Landmark P) × Nat
  | [], active, next_id => (active, next_id)
  | p :: rest, active, next_id =>
    if active.length ≥ max_num_landmarks then (active, next_id)
    else if accept p then
      sampleLandmarks accept max_num_landmarks rest (active ++ [⟨next_id, p⟩]) (next_id + 1)
    else sampleLandmarks accept max_num_landmarks rest active next_id

/-- Modelled from the spec: `initializeMap()`, sampling against the pose at the start of the
trajectory; the simulator becomes ready. -/
def CameraSimulator.initializeMap (env : SimExternals τ P Pixel) (sim : CameraSimulator P)
    (samples : List P) : CameraSimulator P :=
  let r := sampleLandmarks (env.visible env.start) sim.max_num_landmarks samples
    sim.active_landmarks sim.next_id
  { sim with active_landmarks := r.1, next_id := r.2, ready := true }

/-- Modelled from the spec: `getMeasurements(time)`.  It fails before `initializeMap`.  Otherwise
it returns, per camera in rig order, the `(pixel, track_id)` of the landmarks that camera
observes; landmarks visible in no camera are evicted and new ones are sampled against the
current pose. -/
def CameraSimulator.getMeasurements (env : SimExternals τ P Pixel) (sim : CameraSimulator P)
    (time : τ) (samples : List P) : Option (List (List (Pixel × Nat)) × CameraSimulator P) :=
  if sim.ready then
    let measurements := (List.range env.numCameras).map fun c =>
      sim.active_landmarks.filterMap fun l =>
        (env.observe c time l.position).map fun px => (px, l.id)
    let kept := sim.active_landmarks.filter fun l => env.visible time l.position
    let r := sampleLandmarks (env.visible time) sim.max_num_landmarks samples kept sim.next_id
    some (measurements, { sim with active_landmarks := r.1, next_id := r.2 })
  else none

/-- A session of `getMeasurements` calls, each with its query time and the points its sampler
draws: the simulator states after each call, or `none` if a call fails. -/
def runMeasurements (env : SimExternals τ P Pixel) :
    CameraSimulator P → List (τ × List P) → Option (List (CameraSimulator P))
  | _, [] => some []
  | sim, (time, samples) :: rest =>
    match sim.getMeasurements env time samples with
    | none => none
    | some (_, sim') => (runMeasurements env sim' rest).map fun states => sim' :: states

end Simulator

/-- One camera that sees the even numbers, at every time. -/
def evenWorld : SimExternals Nat Nat Nat where
  numCameras := 1
  start := 0
  observe := fun _ _ p => if p % 2 = 0 then some p else none

/-- A session of one hundred calls at the times `0, 1, ..., 99`, three sampling attempts each. -/
def hundredCalls : List (Nat × List Nat) :=
  (List.range 100).map fun i => (i, [2 * i, 2 * i + 1, 2 * i + 2])

/-! ## Accessors -/

section AccessorLemmas

variable {α : Type}

theorem T_C_B_of_get? (rig : CameraRig α) (i : Nat) (T : Transformation α)
    (h : rig.T_C_B_.get? i = some T) : rig.T_C_B i = .ret T := by
  unfold CameraRig.T_C_B
  rw [h]

theorem T_C_B_ret_iff (rig : CameraRig α) (i : Nat) (T : Transformation α) :
    rig.T_C_B i = .ret T ↔ rig.T_C_B_.get? i = some T := by
  unfold CameraRig.T_C_B
  cases h : rig.T_C_B_.get? i <;> simp

theorem atShared_ret_iff (rig : CameraRig α) (i : Nat) (c : CameraPtr) :
    rig.atShared i = .ret c ↔ rig.cameras_.get? i = some c := by
  unfold CameraRig.atShared
  cases h : rig.cameras_.get? i <;> simp

theorem incr32_of_lt (i n : Nat) (hi : i < n) (hn : n < 2 ^ 32) : incr32 i = i + 1 := by
  unfold incr32
  exact Nat.mod_eq_of_lt (by omega)

end AccessorLemmas

/-! ## The enumeration of index pairs -/

theorem mem_allIndexPairs (n a b : Nat) : (a, b) ∈ allIndexPairs n ↔ a < b ∧ b < n := by
  simp only [allIndexPairs, List.mem_flatMap, List.mem_map, List.mem_range, List.mem_range',
    Prod.mk.injEq]
  constructor
  · rintro ⟨a', ha', b', ⟨i, hi, rfl⟩, rfl, rfl⟩
    omega
  · rintro ⟨hab, hbn⟩
    exact ⟨a, by omega, b, ⟨b - (a + 1), by omega, by omega⟩, rfl, rfl⟩

theorem pairwise_allIndexPairs (n : Nat) : (allIndexPairs n).Pairwise lexLt := by
  unfold allIndexPairs
  rw [List.pairwise_flatMap]
  refine ⟨fun a _ => ?_, ?_⟩
  · rw [List.pairwise_map]
    exact (List.pairwise_lt_range' (a + 1) (n - (a + 1))).imp fun h => Or.inr ⟨rfl, h⟩
  · refine (List.pairwise_lt_range n).imp ?_
    intro a a' h p hp q hq
    simp only [List.mem_map] at hp hq
    obtain ⟨b, _, rfl⟩ := hp
    obtain ⟨b', _, rfl⟩ := hq
    exact Or.inl h

theorem lexLt_irrefl (p : StereoIndexPair) : ¬ lexLt p p := by
  unfold lexLt
  omega

section Accept

variable {α : Type} [LinearOrderedField α]

theorem stereoAccept_iff (ext : Externals α) (rig : CameraRig α) (f m : α) (a b : Nat)
    (T_A T_B : Transformation α) (hA : rig.T_C_B a = .ret T_A) (hB : rig.T_C_B b = .ret T_B) :
    stereoAccept ext rig f m (a, b) = true ↔
      ext.overlappingFieldOfView rig a b > f ∧ baseline ext T_A T_B > m := by
  rw [T_C_B_ret_iff] at hA hB
  simp only [stereoAccept, hA, hB, decide_eq_true_eq]

end Accept

/-! ## The loops of `identifyStereoPairsInRig` -/

section LoopLemmas

variable {α : Type} [LinearOrderedField α]

theorem stereoInnerLoop_eq (ext : Externals α) (rig : CameraRig α) (f m : α) (cam_A : Nat)
    (hn : rig.size < 2 ^ 32) (hT : rig.T_C_B_.length = rig.cameras_.length)
    (hA : cam_A < rig.size) :
    ∀ (k fuel cam_B : Nat) (pairs : StereoIndexPairs), cam_B + k = rig.size → k < fuel →
      stereoInnerLoop ext rig f m cam_A fuel cam_B pairs =
        .ret (pairs ++ innerPairs ext rig f m cam_A (List.range' cam_B k)) := by
  intro k
  induction k with
  | zero =>
    intro fuel cam_B pairs hk hf
    obtain ⟨fuel, rfl⟩ := Nat.exists_eq_succ_of_ne_zero (Nat.pos_iff_ne_zero.mp hf)
    have : ¬ cam_B < rig.size := by omega
    simp [stereoInnerLoop, this, innerPairs]
  | succ k ih =>
    intro fuel cam_B pairs hk hf
    have hpos : 0 < fuel := by omega
    obtain ⟨fuel, rfl⟩ := Nat.exists_eq_succ_of_ne_zero (Nat.pos_iff_ne_zero.mp hpos)
    have hB : cam_B < rig.size := by omega
    have hBT : cam_B < rig.T_C_B_.length := by rw [hT]; exact hB
    have hAT : cam_A < rig.T_C_B_.length := by rw [hT]; exact hA
    have hgB : rig.T_C_B_.get? cam_B = some (rig.T_C_B_.get ⟨cam_B, hBT⟩) :=
      List.get?_eq_get hBT
    have hgA : rig.T_C_B_.get? cam_A = some (rig.T_C_B_.get ⟨cam_A, hAT⟩) :=
      List.get?_eq_get hAT
    have hinc : incr32 cam_B = cam_B + 1 := incr32_of_lt cam_B rig.size hB hn
    rw [stereoInnerLoop, if_pos hB, T_C_B_of_get? rig cam_B _ hgB, T_C_B_of_get? rig cam_A _ hgA]
    simp only [Outcome.bind, hinc]
    have hacc : stereoAccept ext rig f m (cam_A, cam_B) =
        decide (ext.overlappingFieldOfView rig cam_A cam_B > f ∧
          baseline ext (rig.T_C_B_.get ⟨cam_A, hAT⟩) (rig.T_C_B_.get ⟨cam_B, hBT⟩) > m) := by
      simp only [stereoAccept, hgA, hgB]
    have hr : List.range' cam_B (k + 1) = cam_B :: List.range' (cam_B + 1) k := by
      simp [List.range']
    split
    · rename_i hc
      rw [ih fuel (cam_B + 1) _ (by omega) (by omega)]
      have : stereoAccept ext rig f m (cam_A, cam_B) = true := by rw [hacc]; exact decide_eq_true hc
      simp [innerPairs, hr, List.filter_cons, this]
    · rename_i hc
      rw [ih fuel (cam_B + 1) _ (by omega) (by omega)]
      have : stereoAccept ext rig f m (cam_A, cam_B) = false := by
        rw [hacc]; exact decide_eq_false hc
      simp [innerPairs, hr, List.filter_cons, this]

theorem stereoOuterLoop_eq (ext : Externals α) (rig : CameraRig α) (f m : α) (innerFuel : Nat)
    (hn : rig.size < 2 ^ 32) (hT : rig.T_C_B_.length = rig.cameras_.length)
    (hi : rig.size < innerFuel) :
    ∀ (k fuel cam_A : Nat) (pairs : StereoIndexPairs), cam_A + k = rig.size → k < fuel →
      stereoOuterLoop ext rig f m innerFuel fuel cam_A pairs =
        .ret (pairs ++ (List.range' cam_A k).flatMap fun a =>
          innerPairs ext rig f m a (List.range' (a + 1) (rig.size - (a + 1)))) := by
  intro k
  induction k with
  | zero =>
    intro fuel cam_A pairs hk hf
    obtain ⟨fuel, rfl⟩ := Nat.exists_eq_succ_of_ne_zero (Nat.pos_iff_ne_zero.mp hf)
    have : ¬ cam_A < rig.size := by omega
    simp [stereoOuterLoop, this]
  | succ k ih =>
    intro fuel cam_A pairs hk hf
    have hpos : 0 < fuel := by omega
    obtain ⟨fuel, rfl⟩ := Nat.exists_eq_succ_of_ne_zero (Nat.pos_iff_ne_zero.mp hpos)
    have hA : cam_A < rig.size := by omega
    have hinc : incr32 cam_A = cam_A + 1 := incr32_of_lt cam_A rig.size hA hn
    rw [stereoOuterLoop, if_pos hA, hinc,
      stereoInnerLoop_eq ext rig f m cam_A hn hT hA (rig.size - (cam_A + 1)) innerFuel
        (cam_A + 1) pairs (by omega) (by omega)]
    simp only [Outcome.bind]
    rw [ih fuel (cam_A + 1) _ (by omega) (by omega)]
    have hr : List.range' cam_A (k + 1) = cam_A :: List.range' (cam_A + 1) k := by
      simp [List.range']
    simp [hr, List.flatMap_cons, List.append_assoc]

/-- The pairs in nested iteration order, filtered by the acceptance test. -/
theorem flatMap_innerPairs_eq (ext : Externals α) (rig : CameraRig α) (f m : α) (n : Nat) :
    ((List.range' 0 n).flatMap fun a =>
        innerPairs ext rig f m a (List.range' (a + 1) (n - (a + 1)))) =
      (allIndexPairs n).filter (stereoAccept ext rig f m) := by
  unfold allIndexPairs innerPairs
  rw [List.range_eq_range']
  induction List.range' 0 n with
  | nil => simp
  | cons a l ih => simp [List.flatMap_cons, List.filter_append, ih]

/-- With fewer than `2 ^ 32` cameras and one extrinsic per camera, enough fuel makes
`identifyStereoPairsInRig` return the accepted pairs in nested iteration order. -/
theorem identifyStereoPairsInRigFuel_eq (ext : Externals α) (rig : CameraRig α) (f m : α)
    (fuel : Nat) (hn : rig.size < 2 ^ 32) (hT : rig.T_C_B_.length = rig.cameras_.length)
    (hf : rig.size < fuel) :
    identifyStereoPairsInRigFuel ext fuel rig f m =
      .ret ((allIndexPairs rig.size).filter (stereoAccept ext rig f m)) := by
  unfold identifyStereoPairsInRigFuel
  rw [stereoOuterLoop_eq ext rig f m fuel hn hT hf rig.size fuel 0 [] (by omega) hf,
    flatMap_innerPairs_eq]
  simp

theorem identifyStereoPairsInRig_eq (ext : Externals α) (rig : CameraRig α) (f m : α)
    (hn : rig.size < 2 ^ 32) (hT : rig.T_C_B_.length = rig.cameras_.length) :
    identifyStereoPairsInRig ext rig f m =
      .ret ((allIndexPairs rig.size).filter (stereoAccept ext rig f m)) :=
  identifyStereoPairsInRigFuel_eq ext rig f m (rig.size + 1) hn hT (Nat.lt_succ_self _)

theorem incr32_lt (i : Nat) : incr32 i < 2 ^ 32 := Nat.mod_lt _ (by norm_num)

/-- On a rig of `2 ^ 32` cameras or more the inner loop never ends: its counter stays below
`rig.size()` however often it is incremented. -/
theorem stereoInnerLoop_ne_ret (ext : Externals α) (rig : CameraRig α) (f m : α) (cam_A : Nat)
    (hbig : 2 ^ 32 ≤ rig.size) :
    ∀ (fuel cam_B : Nat) (pairs r : StereoIndexPairs), cam_B < 2 ^ 32 →
      stereoInnerLoop ext rig f m cam_A fuel cam_B pairs ≠ .ret r := by
  intro fuel
  induction fuel with
  | zero => intro cam_B pairs r _ h; exact Outcome.noConfusion h
  | succ fuel ih =>
    intro cam_B pairs r hB
    have hlt : cam_B < rig.size := lt_of_lt_of_le hB hbig
    rw [stereoInnerLoop, if_pos hlt]
    cases rig.T_C_B cam_B with
    | ret T_B =>
      cases rig.T_C_B cam_A with
      | ret T_A =>
        simp only [Outcome.bind]
        split
        · exact ih _ _ r (incr32_lt cam_B)
        · exact ih _ _ r (incr32_lt cam_B)
      | thrown w => intro h; exact Outcome.noConfusion h
      | fatal msg => intro h; exact Outcome.noConfusion h
      | hang => intro h; exact Outcome.noConfusion h
    | thrown w => intro h; exact Outcome.noConfusion h
    | fatal msg => intro h; exact Outcome.noConfusion h
    | hang => intro h; exact Outcome.noConfusion h

/-- On a rig of `2 ^ 32` cameras or more `identifyStereoPairsInRig` returns with no amount of
fuel. -/
theorem identifyStereoPairsInRigFuel_ne_ret (ext : Externals α) (rig : CameraRig α) (f m : α)
    (hbig : 2 ^ 32 ≤ rig.size) (fuel : Nat) (r : StereoIndexPairs) :
    identifyStereoPairsInRigFuel ext fuel rig f m ≠ .ret r := by
  unfold identifyStereoPairsInRigFuel
  cases fuel with
  | zero => intro h; exact Outcome.noConfusion h
  | succ fuel =>
    have hpos : 0 < rig.size := lt_of_lt_of_le (by norm_num) hbig
    rw [stereoOuterLoop, if_pos hpos]
    have hin := stereoInnerLoop_ne_ret ext rig f m 0 hbig (fuel + 1) (incr32 0) [] 
    cases hres : stereoInnerLoop ext rig f m 0 (fuel + 1) (incr32 0) [] with
    | ret pairs => exact absurd hres (hin pairs (incr32_lt 0))
    | thrown w => intro h; exact Outcome.noConfusion h
    | fatal msg => intro h; exact Outcome.noConfusion h
    | hang => intro h; exact Outcome.noConfusion h

/-- On a rig of fewer than `2 ^ 32` cameras, the inner loop for `cam_A`, started above `cam_A`,
only ever appends pairs `(cam_A, cam_B)` with `cam_A < cam_B < size`. -/
theorem stereoInnerLoop_ordered (ext : Externals α) (rig : CameraRig α) (f m : α) (cam_A : Nat)
    (hn : rig.size < 2 ^ 32) :
    ∀ (fuel cam_B : Nat) (pairs r : StereoIndexPairs), cam_A < cam_B →
      (∀ p ∈ pairs, p.1 < p.2 ∧ p.2 < rig.size) →
      stereoInnerLoop ext rig f m cam_A fuel cam_B pairs = .ret r →
      ∀ p ∈ r, p.1 < p.2 ∧ p.2 < rig.size := by
  intro fuel
  induction fuel with
  | zero => intro cam_B pairs r _ _ h; exact Outcome.noConfusion h
  | succ fuel ih =>
    intro cam_B pairs r hAB hp h
    rw [stereoInnerLoop] at h
    split at h
    · rename_i hB
      have hinc : incr32 cam_B = cam_B + 1 := incr32_of_lt cam_B rig.size hB hn
      cases hTB : rig.T_C_B cam_B with
      | ret T_B =>
        cases hTA : rig.T_C_B cam_A with
        | ret T_A =>
          rw [hTB, hTA, hinc] at h
          simp only [Outcome.bind] at h
          split at h
          · refine ih (cam_B + 1) _ r (by omega) ?_ h
            intro p hp'
            rcases List.mem_append.mp hp' with hp' | hp'
            · exact hp p hp'
            · rw [List.mem_singleton] at hp'
              subst hp'
              exact ⟨hAB, hB⟩
          · exact ih (cam_B + 1) _ r (by omega) hp h
        | thrown w => rw [hTB, hTA] at h; exact Outcome.noConfusion h
        | fatal msg => rw [hTB, hTA] at h; exact Outcome.noConfusion h
        | hang => rw [hTB, hTA] at h; exact Outcome.noConfusion h
      | thrown w => rw [hTB] at h; exact Outcome.noConfusion h
      | fatal msg => rw [hTB] at h; exact Outcome.noConfusion h
      | hang => rw [hTB] at h; exact Outcome.noConfusion h
    · simp only [Outcome.ret.injEq] at h
      subst h
      exact hp

theorem stereoOuterLoop_ordered (ext : Externals α) (rig : CameraRig α) (f m : α)
    (innerFuel : Nat) (hn : rig.size < 2 ^ 32) :
    ∀ (fuel cam_A : Nat) (pairs r : StereoIndexPairs),
      (∀ p ∈ pairs, p.1 < p.2 ∧ p.2 < rig.size) →
      stereoOuterLoop ext rig f m innerFuel fuel cam_A pairs = .ret r →
      ∀ p ∈ r, p.1 < p.2 ∧ p.2 < rig.size := by
  intro fuel
  induction fuel with
  | zero => intro cam_A pairs r _ h; exact Outcome.noConfusion h
  | succ fuel ih =>
    intro cam_A pairs r hp h
    rw [stereoOuterLoop] at h
    split at h
    · rename_i hA
      have hinc : incr32 cam_A = cam_A + 1 := incr32_of_lt cam_A rig.size hA hn
      rw [hinc] at h
      cases hin : stereoInnerLoop ext rig f m cam_A innerFuel (cam_A + 1) pairs with
      | ret pairs' =>
        rw [hin] at h
        simp only [Outcome.bind] at h
        exact ih (cam_A + 1) pairs' r
          (stereoInnerLoop_ordered ext rig f m cam_A hn innerFuel (cam_A + 1) pairs pairs'
            (Nat.lt_succ_self _) hp hin) h
      | thrown w => rw [hin] at h; exact Outcome.noConfusion h
      | fatal msg => rw [hin] at h; exact Outcome.noConfusion h
      | hang => rw [hin] at h; exact Outcome.noConfusion h
    · simp only [Outcome.ret.injEq] at h
      subst h
      exact hp

/-- Whatever the rig and the fuel, a list returned by `identifyStereoPairsInRig` holds only
pairs `(a, b)` with `a < b < size`. -/
theorem identifyStereoPairsInRigFuel_ordered (ext : Externals α) (rig : CameraRig α) (f m : α)
    (fuel : Nat) (pairs : StereoIndexPairs)
    (h : identifyStereoPairsInRigFuel ext fuel rig f m = .ret pairs) :
    ∀ p ∈ pairs, p.1 < p.2 ∧ p.2 < rig.size := by
  rcases Nat.lt_or_ge rig.size (2 ^ 32) with hn | hbig
  · exact stereoOuterLoop_ordered ext rig f m fuel hn fuel 0 [] pairs
      (fun p hp => absurd hp (List.not_mem_nil p)) h
  · exact absurd h (identifyStereoPairsInRigFuel_ne_ret ext rig f m hbig fuel pairs)

/-- On a rig of fewer than `2 ^ 32` cameras, an inner loop that returns has appended exactly the
accepted pairs `(cam_A, cam_B')` for `cam_B'` from `cam_B` up to `size`. -/
theorem stereoInnerLoop_ret (ext : Externals α) (rig : CameraRig α) (f m : α) (cam_A : Nat)
    (hn : rig.size < 2 ^ 32) :
    ∀ (fuel cam_B : Nat) (pairs r : StereoIndexPairs),
      stereoInnerLoop ext rig f m cam_A fuel cam_B pairs = .ret r →
      r = pairs ++ innerPairs ext rig f m cam_A (List.range' cam_B (rig.size - cam_B)) := by
  intro fuel
  induction fuel with
  | zero => intro cam_B pairs r h; exact Outcome.noConfusion h
  | succ fuel ih =>
    intro cam_B pairs r h
    rw [stereoInnerLoop] at h
    split at h
    · rename_i hB
      have hinc : incr32 cam_B = cam_B + 1 := incr32_of_lt cam_B rig.size hB hn
      have hr : List.range' cam_B (rig.size - cam_B) =
          cam_B :: List.range' (cam_B + 1) (rig.size - (cam_B + 1)) := by
        have : rig.size - cam_B = (rig.size - (cam_B + 1)) + 1 := by omega
        rw [this]
        simp [List.range']
      cases hTB : rig.T_C_B cam_B with
      | ret T_B =>
        cases hTA : rig.T_C_B cam_A with
        | ret T_A =>
          have hacc := stereoAccept_iff ext rig f m cam_A cam_B T_A T_B hTA hTB
          rw [hTB, hTA, hinc] at h
          simp only [Outcome.bind] at h
          split at h
          · rename_i hc
            rw [ih (cam_B + 1) _ r h, hr]
            simp [innerPairs, List.filter_cons, hacc.mpr hc]
          · rename_i hc
            have hfalse : stereoAccept ext rig f m (cam_A, cam_B) = false := by
              rw [Bool.eq_false_iff]
              exact fun ht => hc (hacc.mp ht)
            rw [ih (cam_B + 1) _ r h, hr]
            simp [innerPairs, List.filter_cons, hfalse]
        | thrown w => rw [hTB, hTA] at h; exact Outcome.noConfusion h
        | fatal msg => rw [hTB, hTA] at h; exact Outcome.noConfusion h
        | hang => rw [hTB, hTA] at h; exact Outcome.noConfusion h
      | thrown w => rw [hTB] at h; exact Outcome.noConfusion h
      | fatal msg => rw [hTB] at h; exact Outcome.noConfusion h
      | hang => rw [hTB] at h; exact Outcome.noConfusion h
    · rename_i hB
      simp only [Outcome.ret.injEq] at h
      subst h
      have : rig.size - cam_B = 0 := by omega
      simp [this, innerPairs]

theorem stereoOuterLoop_ret (ext : Externals α) (rig : CameraRig α) (f m : α)
    (innerFuel : Nat) (hn : rig.size < 2 ^ 32) :
    ∀ (fuel cam_A : Nat) (pairs r : StereoIndexPairs),
      stereoOuterLoop ext rig f m innerFuel fuel cam_A pairs = .ret r →
      r = pairs ++ (List.range' cam_A (rig.size - cam_A)).flatMap fun a =>
        innerPairs ext rig f m a (List.range' (a + 1) (rig.size - (a + 1))) := by
  intro fuel
  induction fuel with
  | zero => intro cam_A pairs r h; exact Outcome.noConfusion h
  | succ fuel ih =>
    intro cam_A pairs r h
    rw [stereoOuterLoop] at h
    split at h
    · rename_i hA
      have hinc : incr32 cam_A = cam_A + 1 := incr32_of_lt cam_A rig.size hA hn
      have hr : List.range' cam_A (rig.size - cam_A) =
          cam_A :: List.range' (cam_A + 1) (rig.size - (cam_A + 1)) := by
        have : rig.size - cam_A = (rig.size - (cam_A + 1)) + 1 := by omega
        rw [this]
        simp [List.range']
      rw [hinc] at h
      cases hin : stereoInnerLoop ext rig f m cam_A innerFuel (cam_A + 1) pairs with
      | ret pairs' =>
        rw [hin] at h
        simp only [Outcome.bind] at h
        rw [ih (cam_A + 1) pairs' r h,
          stereoInnerLoop_ret ext rig f m cam_A hn innerFuel (cam_A + 1) pairs pairs' hin, hr]
        simp [List.flatMap_cons, List.append_assoc]
      | thrown w => rw [hin] at h; exact Outcome.noConfusion h
      | fatal msg => rw [hin] at h; exact Outcome.noConfusion h
      | hang => rw [hin] at h; exact Outcome.noConfusion h
    · rename_i hA
      simp only [Outcome.ret.injEq] at h
      subst h
      have : rig.size - cam_A = 0 := by omega
      simp [this]

/-- Whatever the rig and the fuel, a list returned by `identifyStereoPairsInRig` is the list of
accepted pairs in nested iteration order. -/
theorem identifyStereoPairsInRigFuel_ret (ext : Externals α) (rig : CameraRig α) (f m : α)
    (fuel : Nat) (pairs : StereoIndexPairs)
    (h : identifyStereoPairsInRigFuel ext fuel rig f m = .ret pairs) :
    pairs = (allIndexPairs rig.size).filter (stereoAccept ext rig f m) := by
  rcases Nat.lt_or_ge rig.size (2 ^ 32) with hn | hbig
  · have := stereoOuterLoop_ret ext rig f m fuel hn fuel 0 [] pairs h
    rw [this, ← flatMap_innerPairs_eq]
    simp
  · exact absurd h (identifyStereoPairsInRigFuel_ne_ret ext rig f m hbig fuel pairs)

/-- With one extrinsic per camera no access inside the inner loop is out of range: the loop
returns or runs forever, it does not abort. -/
theorem stereoInnerLoop_no_abort (ext : Externals α) (rig : CameraRig α) (f m : α) (cam_A : Nat)
    (hT : rig.T_C_B_.length = rig.cameras_.length) (hA : cam_A < rig.size) :
    ∀ (fuel cam_B : Nat) (pairs : StereoIndexPairs),
      stereoInnerLoop ext rig f m cam_A fuel cam_B pairs = .hang ∨
        ∃ r, stereoInnerLoop ext rig f m cam_A fuel cam_B pairs = .ret r := by
  intro fuel
  induction fuel with
  | zero => intro cam_B pairs; exact Or.inl rfl
  | succ fuel ih =>
    intro cam_B pairs
    rw [stereoInnerLoop]
    split
    · rename_i hB
      have hBT : cam_B < rig.T_C_B_.length := by rw [hT]; exact hB
      have hAT : cam_A < rig.T_C_B_.length := by rw [hT]; exact hA
      rw [T_C_B_of_get? rig cam_B _ (List.get?_eq_get hBT),
        T_C_B_of_get? rig cam_A _ (List.get?_eq_get hAT)]
      simp only [Outcome.bind]
      split
      · exact ih _ _
      · exact ih _ _
    · exact Or.inr ⟨pairs, rfl⟩

theorem stereoOuterLoop_no_abort (ext : Externals α) (rig : CameraRig α) (f m : α)
    (innerFuel : Nat) (hT : rig.T_C_B_.length = rig.cameras_.length) :
    ∀ (fuel cam_A : Nat) (pairs : StereoIndexPairs),
      stereoOuterLoop ext rig f m innerFuel fuel cam_A pairs = .hang ∨
        ∃ r, stereoOuterLoop ext rig f m innerFuel fuel cam_A pairs = .ret r := by
  intro fuel
  induction fuel with
  | zero => intro cam_A pairs; exact Or.inl rfl
  | succ fuel ih =>
    intro cam_A pairs
    rw [stereoOuterLoop]
    split
    · rename_i hA
      rcases stereoInnerLoop_no_abort ext rig f m cam_A hT hA innerFuel (incr32 cam_A) pairs
        with hin | ⟨r, hin⟩
      · rw [hin]; exact Or.inl rfl
      · rw [hin]
        simp only [Outcome.bind]
        exact ih _ _
    · exact Or.inr ⟨pairs, rfl⟩

theorem identifyStereoPairsInRig_no_abort (ext : Externals α) (rig : CameraRig α) (f m : α)
    (hT : rig.T_C_B_.length = rig.cameras_.length) :
    identifyStereoPairsInRig ext rig f m = .hang ∨
      ∃ r, identifyStereoPairsInRig ext rig f m = .ret r :=
  stereoOuterLoop_no_abort ext rig f m _ hT _ 0 []

end LoopLemmas

/-! ## Evaluation on the two-camera rig -/

theorem rat_sqrt_sq_of_nonneg (q : ℚ) (hq : 0 ≤ q) : Rat.sqrt (q * q) = q := by
  rw [Rat.sqrt_eq, abs_of_nonneg hq]

theorem baseline_extrinsics2 (d : ℚ) (hd : 0 ≤ d) :
    baseline extQ ⟨1, ![0, 0, 0]⟩ ⟨1, ![d, 0, 0]⟩ = d := by
  simp [baseline, Externals.norm, Transformation.mul, Transformation.inverse,
    Transformation.getPosition, squaredNorm, extQ]
  exact rat_sqrt_sq_of_nonneg d hd

theorem identify_rig2 (d f m : ℚ) (hd : 0 ≤ d) :
    identifyStereoPairsInRig extQ (rig2 d) f m =
      if f < 3 / 5 ∧ m < d then .ret [(0, 1)] else .ret [] := by
  have hb := baseline_extrinsics2 d hd
  have ho : ∀ (r : CameraRig ℚ) (i j : Nat), extQ.overlappingFieldOfView r i j = 3 / 5 :=
    fun _ _ _ => rfl
  simp only [identifyStereoPairsInRig, identifyStereoPairsInRigFuel, stereoOuterLoop,
    stereoInnerLoop, incr32, CameraRig.size, CameraRig.T_C_B, rig2, extrinsics2, Outcome.bind,
    ho, List.length_cons, List.length_nil, List.get?_cons_zero, List.get?_cons_succ,
    List.nil_append, gt_iff_lt]
  norm_num
  rw [hb]
  by_cases hc : f < 3 / 5 ∧ m < d
  · rw [if_pos hc]
  · rw [if_neg hc]

theorem identify_rig2_far :
    identifyStereoPairsInRig extQ (rig2 (3 / 25)) (1 / 2) (1 / 10) = .ret [(0, 1)] := by
  rw [identify_rig2 _ _ _ (by norm_num)]
  norm_num

theorem identify_rig2_near :
    identifyStereoPairsInRig extQ (rig2 (1 / 20)) (1 / 2) (1 / 10) = .ret [] := by
  rw [identify_rig2 _ _ _ (by norm_num)]
  norm_num

theorem rig2_size (d : ℚ) : (rig2 d).size = 2 := rfl

theorem rig2_size_lt (d : ℚ) : (rig2 d).size < 2 ^ 32 := by
  rw [rig2_size]
  norm_num

theorem rig2_lengths (d : ℚ) : (rig2 d).T_C_B_.length = (rig2 d).cameras_.length := rfl

/-! ## Stereo-pair identification -/

section Identify

variable {α : Type} [LinearOrderedField α]

/-- C1: for every rig and thresholds, whenever `identifyStereoPairsInRig` returns a list, then
for all camera indices `a < b < size` the list contains `(a, b)` exactly when the overlap is
strictly above `min_fov_overlap` and the baseline is strictly above `min_baseline`; a value
equal to its threshold rejects the pair.  On a rig of fewer than `2 ^ 32` cameras with one
extrinsic per camera the function does return, with the same list for every sufficient fuel. -/
theorem identifyStereoPairsInRig_accepts_iff (ext : Externals α) (rig : CameraRig α)
    (min_fov_overlap min_baseline : α) :
    (∀ (fuel : Nat) (pairs : StereoIndexPairs),
      identifyStereoPairsInRigFuel ext fuel rig min_fov_overlap min_baseline = .ret pairs →
      ∀ (a b : Nat) (T_A T_B : Transformation α), a < b → b < rig.size →
        rig.T_C_B a = .ret T_A → rig.T_C_B b = .ret T_B →
        (((a, b) ∈ pairs ↔
            ext.overlappingFieldOfView rig a b > min_fov_overlap ∧
              baseline ext T_A T_B > min_baseline) ∧
          (ext.overlappingFieldOfView rig a b = min_fov_overlap → (a, b) ∉ pairs) ∧
          (baseline ext T_A T_B = min_baseline → (a, b) ∉ pairs))) ∧
    (rig.size < 2 ^ 32 → rig.T_C_B_.length = rig.cameras_.length →
      ∃ pairs, identifyStereoPairsInRig ext rig min_fov_overlap min_baseline = .ret pairs ∧
        ∀ fuel, rig.size < fuel →
          identifyStereoPairsInRigFuel ext fuel rig min_fov_overlap min_baseline =
            .ret pairs) := by
  constructor
  · intro fuel pairs hret a b T_A T_B hab hb hA hB
    have hmem : (a, b) ∈ pairs ↔
        ext.overlappingFieldOfView rig a b > min_fov_overlap ∧
          baseline ext T_A T_B > min_baseline := by
      rw [identifyStereoPairsInRigFuel_ret ext rig min_fov_overlap min_baseline fuel pairs hret,
        List.mem_filter, mem_allIndexPairs,
        stereoAccept_iff ext rig min_fov_overlap min_baseline a b T_A T_B hA hB]
      exact ⟨fun h => h.2, fun h => ⟨⟨hab, hb⟩, h⟩⟩
    refine ⟨hmem, ?_, ?_⟩
    · intro heq hin
      exact absurd (hmem.mp hin).1 (by rw [heq]; exact lt_irrefl _)
    · intro heq hin
      exact absurd (hmem.mp hin).2 (by rw [heq]; exact lt_irrefl _)
  · intro hsize hT
    exact ⟨_, identifyStereoPairsInRig_eq ext rig min_fov_overlap min_baseline hsize hT,
      fun fuel hf =>
        identifyStereoPairsInRigFuel_eq ext rig min_fov_overlap min_baseline fuel hsize hT hf⟩

/-- The two-camera rig with overlap `0.6` against threshold `0.5` and baseline `0.12` against
threshold `0.1` yields `[(0, 1)]`; with baseline `0.05` it yields `[]`. -/
theorem identifyStereoPairsInRig_accepts_iff_witness :
    (rig2 (3 / 25)).size < 2 ^ 32 ∧
    (rig2 (3 / 25)).T_C_B_.length = (rig2 (3 / 25)).cameras_.length ∧
    (∃ pairs, identifyStereoPairsInRig extQ (rig2 (3 / 25)) (1 / 2) (1 / 10) = .ret pairs ∧
      (0, 1) ∈ pairs) ∧
    identifyStereoPairsInRig extQ (rig2 (3 / 25)) (1 / 2) (1 / 10) = .ret [(0, 1)] ∧
    identifyStereoPairsInRig extQ (rig2 (1 / 20)) (1 / 2) (1 / 10) = .ret [] := by
  refine ⟨rig2_size_lt _, rig2_lengths _, ?_, identify_rig2_far, identify_rig2_near⟩
  have hthm := identifyStereoPairsInRig_accepts_iff extQ (rig2 (3 / 25)) (1 / 2) (1 / 10)
  obtain ⟨pairs, hp, _⟩ := hthm.2 (rig2_size_lt _) (rig2_lengths _)
  refine ⟨pairs, hp, ?_⟩
  refine (hthm.1 _ pairs hp 0 1 ⟨1, ![0, 0, 0]⟩ ⟨1, ![3 / 25, 0, 0]⟩ (by norm_num)
    (by rw [rig2_size]; norm_num) rfl rfl).1.mpr ⟨?_, ?_⟩
  · norm_num [extQ]
  · rw [baseline_extrinsics2 _ (by norm_num)]
    norm_num

/-- C4: for every rig and thresholds, every pair `(a, b)` in a list returned by
`identifyStereoPairsInRig` has `a < b < size`, so no pair has `a ≥ b` and no camera is paired
with itself.  On a rig of fewer than `2 ^ 32` cameras with one extrinsic per camera the function
does return, with the same list for every sufficient fuel. -/
theorem identifyStereoPairsInRig_indices_ordered (ext : Externals α) (rig : CameraRig α)
    (min_fov_overlap min_baseline : α) :
    (∀ (fuel : Nat) (pairs : StereoIndexPairs),
      identifyStereoPairsInRigFuel ext fuel rig min_fov_overlap min_baseline = .ret pairs →
      ∀ p ∈ pairs, p.1 < p.2 ∧ p.2 < rig.size ∧ ¬ p.1 ≥ p.2 ∧ p.1 ≠ p.2) ∧
    (rig.size < 2 ^ 32 → rig.T_C_B_.length = rig.cameras_.length →
      ∃ pairs, identifyStereoPairsInRig ext rig min_fov_overlap min_baseline = .ret pairs ∧
        ∀ fuel, rig.size < fuel →
          identifyStereoPairsInRigFuel ext fuel rig min_fov_overlap min_baseline =
            .ret pairs) := by
  constructor
  · intro fuel pairs h p hp
    have := identifyStereoPairsInRigFuel_ordered ext rig min_fov_overlap min_baseline fuel pairs
      h p hp
    omega
  · intro hsize hT
    exact ⟨_, identifyStereoPairsInRig_eq ext rig min_fov_overlap min_baseline hsize hT,
      fun fuel hf =>
        identifyStereoPairsInRigFuel_eq ext rig min_fov_overlap min_baseline fuel hsize hT hf⟩

/-- On the two-camera rig the function returns, and every returned pair `(a, b)` has
`a < b < 2`. -/
theorem identifyStereoPairsInRig_indices_ordered_witness :
    (rig2 (3 / 25)).size < 2 ^ 32 ∧
    (rig2 (3 / 25)).T_C_B_.length = (rig2 (3 / 25)).cameras_.length ∧
    ∃ pairs, identifyStereoPairsInRig extQ (rig2 (3 / 25)) (1 / 2) (1 / 10) = .ret pairs ∧
      ∀ p ∈ pairs, p.1 < p.2 ∧ p.2 < 2 := by
  have hthm := identifyStereoPairsInRig_indices_ordered extQ (rig2 (3 / 25)) (1 / 2) (1 / 10)
  obtain ⟨pairs, hp, _⟩ := hthm.2 (rig2_size_lt _) (rig2_lengths _)
  refine ⟨rig2_size_lt _, rig2_lengths _, pairs, hp, fun p hmem => ?_⟩
  have h := hthm.1 _ pairs hp p hmem
  exact ⟨h.1, h.2.1⟩

/-- C7: for every rig and thresholds, a list returned by `identifyStereoPairsInRig` is the
enumeration of all pairs `a < b < size` in nested iteration order (`a` ascending, then `b`
ascending) filtered by the acceptance test; it is strictly increasing in the lexicographic
order on `(a, b)` and has no duplicate.  On a rig of fewer than `2 ^ 32` cameras with one
extrinsic per camera the function does return, with the same list for every sufficient fuel. -/
theorem identifyStereoPairsInRig_nested_order (ext : Externals α) (rig : CameraRig α)
    (min_fov_overlap min_baseline : α) :
    (∀ (fuel : Nat) (pairs : StereoIndexPairs),
      identifyStereoPairsInRigFuel ext fuel rig min_fov_overlap min_baseline = .ret pairs →
      pairs.Pairwise lexLt ∧ pairs.Nodup ∧
      pairs = (allIndexPairs rig.size).filter
        (stereoAccept ext rig min_fov_overlap min_baseline)) ∧
    (allIndexPairs rig.size).Pairwise lexLt ∧
    (∀ a b : Nat, (a, b) ∈ allIndexPairs rig.size ↔ a < b ∧ b < rig.size) ∧
    (∀ (a b : Nat) (T_A T_B : Transformation α),
      rig.T_C_B a = .ret T_A → rig.T_C_B b = .ret T_B →
      (stereoAccept ext rig min_fov_overlap min_baseline (a, b) = true ↔
        ext.overlappingFieldOfView rig a b > min_fov_overlap ∧
          baseline ext T_A T_B > min_baseline)) ∧
    (rig.size < 2 ^ 32 → rig.T_C_B_.length = rig.cameras_.length →
      ∃ pairs, identifyStereoPairsInRig ext rig min_fov_overlap min_baseline = .ret pairs ∧
        ∀ fuel, rig.size < fuel →
          identifyStereoPairsInRigFuel ext fuel rig min_fov_overlap min_baseline =
            .ret pairs) := by
  refine ⟨?_, pairwise_allIndexPairs rig.size, mem_allIndexPairs rig.size, ?_, ?_⟩
  · intro fuel pairs hret
    have heq := identifyStereoPairsInRigFuel_ret ext rig min_fov_overlap min_baseline fuel pairs
      hret
    have hpw : pairs.Pairwise lexLt := by
      rw [heq]
      exact (pairwise_allIndexPairs rig.size).filter _
    refine ⟨hpw, ?_, heq⟩
    refine List.Pairwise.imp ?_ hpw
    intro p q h heq
    exact lexLt_irrefl q (heq ▸ h)
  · intro a b T_A T_B hA hB
    exact stereoAccept_iff ext rig min_fov_overlap min_baseline a b T_A T_B hA hB
  · intro hsize hT
    exact ⟨_, identifyStereoPairsInRig_eq ext rig min_fov_overlap min_baseline hsize hT,
      fun fuel hf =>
        identifyStereoPairsInRigFuel_eq ext rig min_fov_overlap min_baseline fuel hsize hT hf⟩

/-- On the two-camera rig the function returns a list that is sorted and duplicate-free. -/
theorem identifyStereoPairsInRig_nested_order_witness :
    (rig2 (3 / 25)).size < 2 ^ 32 ∧
    (rig2 (3 / 25)).T_C_B_.length = (rig2 (3 / 25)).cameras_.length ∧
    ∃ pairs, identifyStereoPairsInRig extQ (rig2 (3 / 25)) (1 / 2) (1 / 10) = .ret pairs ∧
      pairs.Pairwise lexLt ∧ pairs.Nodup := by
  have hthm := identifyStereoPairsInRig_nested_order extQ (rig2 (3 / 25)) (1 / 2) (1 / 10)
  obtain ⟨pairs, hp, _⟩ := hthm.2.2.2.2 (rig2_size_lt _) (rig2_lengths _)
  obtain ⟨hpw, hnd, _⟩ := hthm.1 _ pairs hp
  exact ⟨rig2_size_lt _, rig2_lengths _, pairs, hp, hpw, hnd⟩

end Identify

/-! ## The constructor -/

section Construct

variable {α : Type} [LinearOrderedField α]

theorem any_isNone_eq_false (cameras : List CameraPtr) (h : ∀ c ∈ cameras, c ≠ none) :
    cameras.any Option.isNone = false := by
  rw [Bool.eq_false_iff]
  intro hany
  obtain ⟨c, hc, hn⟩ := List.any_eq_true.mp hany
  exact h c hc (Option.isNone_iff_eq_none.mp hn)

theorem any_isNone_eq_true (cameras : List CameraPtr) (h : ∃ c ∈ cameras, c = none) :
    cameras.any Option.isNone = true := by
  obtain ⟨c, hc, rfl⟩ := h
  exact List.any_eq_true.mpr ⟨none, hc, rfl⟩

/-- The rig a successful construction yields. -/
theorem construct_eq (ext : Externals α) (T_C_B : List (Transformation α))
    (cameras : List CameraPtr) (label : String) (f m : α)
    (hlen : T_C_B.length = cameras.length) (hnn : ∀ c ∈ cameras, c ≠ none)
    (hsize : cameras.length < 2 ^ 32) :
    CameraRig.construct ext T_C_B cameras label f m =
      .ret ⟨T_C_B, cameras, label,
        if cameras.length > 1 then
          (allIndexPairs cameras.length).filter (stereoAccept ext ⟨T_C_B, cameras, label, []⟩ f m)
        else []⟩ := by
  unfold CameraRig.construct
  simp only [hlen, ne_eq, not_true_eq_false, if_false, any_isNone_eq_false cameras hnn,
    Bool.false_eq_true]
  by_cases h1 : cameras.length > 1
  · have hs : (⟨T_C_B, cameras, label, []⟩ : CameraRig α).size > 1 := h1
    rw [if_pos hs, if_pos h1,
      identifyStereoPairsInRig_eq ext ⟨T_C_B, cameras, label, []⟩ f m hsize hlen]
    rfl
  · have hs : ¬ (⟨T_C_B, cameras, label, []⟩ : CameraRig α).size > 1 := h1
    rw [if_neg hs, if_neg h1]

/-- With as many extrinsics as cameras and no null handle, the constructor does not abort. -/
theorem construct_no_abort (ext : Externals α) (T_C_B : List (Transformation α))
    (cameras : List CameraPtr) (label : String) (f m : α)
    (hlen : T_C_B.length = cameras.length) (hnn : ∀ c ∈ cameras, c ≠ none) :
    CameraRig.construct ext T_C_B cameras label f m = .hang ∨
      ∃ rig, CameraRig.construct ext T_C_B cameras label f m = .ret rig := by
  unfold CameraRig.construct
  simp only [hlen, ne_eq, not_true_eq_false, if_false, any_isNone_eq_false cameras hnn,
    Bool.false_eq_true]
  split
  · rcases identifyStereoPairsInRig_no_abort ext ⟨T_C_B, cameras, label, []⟩ f m hlen
      with h | ⟨r, h⟩
    · rw [h]; exact Or.inl rfl
    · rw [h]; exact Or.inr ⟨_, rfl⟩
  · exact Or.inr ⟨_, rfl⟩

theorem construct_fatal (ext : Externals α) (T_C_B : List (Transformation α))
    (cameras : List CameraPtr) (label : String) (f m : α)
    (h : T_C_B.length ≠ cameras.length ∨ ∃ c ∈ cameras, c = none) :
    ∃ msg, CameraRig.construct ext T_C_B cameras label f m = .fatal msg := by
  unfold CameraRig.construct
  by_cases hlen : T_C_B.length = cameras.length
  · have hnull := any_isNone_eq_true cameras (h.resolve_left (fun hne => hne hlen))
    simp only [hlen, ne_eq, not_true_eq_false, if_false, hnull, if_true]
    exact ⟨_, rfl⟩
  · simp only [ne_eq, hlen, not_false_eq_true, if_true]
    exact ⟨_, rfl⟩

/-- What a returning construction says about its arguments and its result. -/
theorem construct_ret (ext : Externals α) (T_C_B : List (Transformation α))
    (cameras : List CameraPtr) (label : String) (f m : α) (rig : CameraRig α)
    (h : CameraRig.construct ext T_C_B cameras label f m = .ret rig) :
    rig.T_C_B_ = T_C_B ∧ rig.cameras_ = cameras ∧ rig.label_ = label ∧
    T_C_B.length = cameras.length ∧ (∀ c ∈ cameras, c ≠ none) ∧
    (cameras.length ≤ 1 → rig.stereo_pairs_ = []) ∧
    (cameras.length > 1 →
      identifyStereoPairsInRig ext ⟨T_C_B, cameras, label, []⟩ f m = .ret rig.stereo_pairs_) := by
  unfold CameraRig.construct at h
  simp only at h
  split at h
  · exact Outcome.noConfusion h
  · rename_i hlen
    have hlen' : T_C_B.length = cameras.length := not_not.mp hlen
    split at h
    · exact Outcome.noConfusion h
    · rename_i hany
      have hnn : ∀ c ∈ cameras, c ≠ none := by
        intro c hc hn
        exact hany (any_isNone_eq_true cameras ⟨c, hc, hn⟩)
      split at h
      · rename_i hs
        have hs' : cameras.length > 1 := hs
        cases hid : identifyStereoPairsInRig ext ⟨T_C_B, cameras, label, []⟩ f m with
        | ret pairs =>
          rw [hid] at h
          simp only [Outcome.bind, CameraRig.setStereoPairs, Outcome.ret.injEq] at h
          subst h
          exact ⟨rfl, rfl, rfl, hlen', hnn, fun hle => absurd hs' (by omega), fun _ => rfl⟩
        | thrown w => rw [hid] at h; exact Outcome.noConfusion h
        | fatal msg => rw [hid] at h; exact Outcome.noConfusion h
        | hang => rw [hid] at h; exact Outcome.noConfusion h
      · rename_i hs
        have hs' : ¬ cameras.length > 1 := hs
        simp only [Outcome.ret.injEq] at h
        subst h
        exact ⟨rfl, rfl, rfl, hlen', hnn, fun _ => rfl, fun hgt => absurd hgt hs'⟩

/-- C3: constructing a `CameraRig` aborts on a failed check exactly when the number of
extrinsics differs from the number of cameras or some camera handle is null, and then no rig is
returned; a rig the constructor returns holds the given extrinsics and cameras with
`|extrinsics| = |cameras| = size()` and no null handle; and when the numbers are equal, every
handle is non-null and there are fewer than `2 ^ 32` cameras, the constructor returns a rig. -/
theorem construct_checks (ext : Externals α) (T_C_B : List (Transformation α))
    (cameras : List CameraPtr) (label : String) (f m : α) :
    ((∃ msg, CameraRig.construct ext T_C_B cameras label f m = .fatal msg) ↔
      (T_C_B.length ≠ cameras.length ∨ ∃ c ∈ cameras, c = none)) ∧
    ((T_C_B.length ≠ cameras.length ∨ ∃ c ∈ cameras, c = none) →
      ∀ rig, CameraRig.construct ext T_C_B cameras label f m ≠ .ret rig) ∧
    (∀ rig, CameraRig.construct ext T_C_B cameras label f m = .ret rig →
      rig.T_C_B_ = T_C_B ∧ rig.cameras_ = cameras ∧
      rig.T_C_B_.length = rig.cameras_.length ∧ rig.cameras_.length = rig.size ∧ rig.Valid) ∧
    (T_C_B.length = cameras.length → (∀ c ∈ cameras, c ≠ none) → cameras.length < 2 ^ 32 →
      ∃ rig, CameraRig.construct ext T_C_B cameras label f m = .ret rig) := by
  refine ⟨⟨?_, construct_fatal ext T_C_B cameras label f m⟩, ?_, ?_, ?_⟩
  · rintro ⟨msg, hmsg⟩
    by_contra hbad
    have hlen : T_C_B.length = cameras.length := by
      by_contra hne
      exact hbad (Or.inl hne)
    have hnn : ∀ c ∈ cameras, c ≠ none := fun c hc hn => hbad (Or.inr ⟨c, hc, hn⟩)
    rcases construct_no_abort ext T_C_B cameras label f m hlen hnn with h | ⟨rig, h⟩
    · rw [h] at hmsg; exact Outcome.noConfusion hmsg
    · rw [h] at hmsg; exact Outcome.noConfusion hmsg
  · intro hbad rig hr
    obtain ⟨msg, hmsg⟩ := construct_fatal ext T_C_B cameras label f m hbad
    rw [hmsg] at hr
    exact Outcome.noConfusion hr
  · intro rig hr
    obtain ⟨hT, hc, _, hlen, hnn, _, _⟩ := construct_ret ext T_C_B cameras label f m rig hr
    refine ⟨hT, hc, by rw [hT, hc]; exact hlen, rfl, by rw [hT, hc]; exact hlen, ?_⟩
    rw [hc]
    exact hnn
  · intro hlen hnn hsize
    exact ⟨_, construct_eq ext T_C_B cameras label f m hlen hnn hsize⟩

/-- Two extrinsics with two non-null cameras construct a rig of size two; one camera too few,
or a null handle, aborts. -/
theorem construct_checks_witness :
    (extrinsics2 (3 / 25)).length = [some 0, some 1].length ∧
    (∀ c ∈ [some 0, some 1], c ≠ (none : CameraPtr)) ∧
    [some 0, some (1 : Nat)].length < 2 ^ 32 ∧
    (∃ rig, CameraRig.construct extQ (extrinsics2 (3 / 25)) [some 0, some 1] "stereo"
        (1 / 2) (1 / 10) = .ret rig ∧ rig.size = 2) ∧
    (∃ msg, CameraRig.construct extQ (extrinsics2 (3 / 25)) [some 0] "stereo"
        (1 / 2) (1 / 10) = .fatal msg) ∧
    (∃ msg, CameraRig.construct extQ (extrinsics2 (3 / 25)) [some 0, none] "stereo"
        (1 / 2) (1 / 10) = .fatal msg) := by
  have hnn : ∀ c ∈ [some 0, some 1], c ≠ (none : CameraPtr) := by simp
  have hlt : [some 0, some (1 : Nat)].length < 2 ^ 32 := by norm_num
  refine ⟨rfl, hnn, hlt, ?_, ?_, ?_⟩
  · have hthm := construct_checks extQ (extrinsics2 (3 / 25)) [some 0, some 1] "stereo" (1 / 2)
      (1 / 10)
    obtain ⟨rig, hr⟩ := hthm.2.2.2 rfl hnn hlt
    obtain ⟨_, hc, _, hs, _⟩ := hthm.2.2.1 rig hr
    exact ⟨rig, hr, by rw [← hs, hc]; rfl⟩
  · exact (construct_checks extQ (extrinsics2 (3 / 25)) [some 0] "stereo" (1 / 2)
      (1 / 10)).1.mpr (Or.inl (by decide))
  · exact (construct_checks extQ (extrinsics2 (3 / 25)) [some 0, none] "stereo" (1 / 2)
      (1 / 10)).1.mpr (Or.inr ⟨none, by simp, rfl⟩)

end Construct

/-! ## Sub-rigs -/

section SubRigAccess

variable {α : Type}

/-- The loop of `getSubRig` reads only the extrinsics and the camera handles of the parent. -/
theorem getSubRigLoop_congr (p1 p2 : CameraRig α) (hT : p1.T_C_B_ = p2.T_C_B_)
    (hc : p1.cameras_ = p2.cameras_) :
    ∀ (indices : List Nat) (cameras : List CameraPtr) (T : List (Transformation α)),
      getSubRigLoop p1 indices cameras T = getSubRigLoop p2 indices cameras T := by
  intro indices
  induction indices with
  | nil => intro cameras T; rfl
  | cons i rest ih =>
    intro cameras T
    have h1 : p1.atShared i = p2.atShared i := by unfold CameraRig.atShared; rw [hc]
    have h2 : p1.T_C_B i = p2.T_C_B i := by unfold CameraRig.T_C_B; rw [hT]
    rw [getSubRigLoop, getSubRigLoop, h1, h2]
    cases p2.atShared i with
    | ret c =>
      cases p2.T_C_B i with
      | ret T_i => simp only [Outcome.bind]; exact ih _ _
      | thrown w => rfl
      | fatal msg => rfl
      | hang => rfl
    | thrown w => rfl
    | fatal msg => rfl
    | hang => rfl

theorem subRig_cameras_ne_none (rig : CameraRig α) (indices : List Nat) (hv : rig.Valid)
    (hidx : ∀ i ∈ indices, i < rig.size) :
    ∀ c ∈ indices.map (fun i => (rig.cameras_.get? i).getD none), c ≠ none := by
  intro c hc
  obtain ⟨i, hi, rfl⟩ := List.mem_map.mp hc
  have hlt : i < rig.cameras_.length := hidx i hi
  rw [List.get?_eq_get hlt, Option.getD_some]
  exact hv.2 _ (List.get_mem _ _ _)

end SubRigAccess

section SubRig

variable {α : Type} [LinearOrderedField α]

/-- The loop of `getSubRig` on indices that are all in range. -/
theorem getSubRigLoop_eq (rig : CameraRig α) :
    ∀ (indices : List Nat) (cameras : List CameraPtr) (T : List (Transformation α)),
      (∀ i ∈ indices, i < rig.cameras_.length ∧ i < rig.T_C_B_.length) →
      getSubRigLoop rig indices cameras T =
        .ret (cameras ++ indices.map (fun i => (rig.cameras_.get? i).getD none),
          T ++ indices.map (fun i => (rig.T_C_B_.get? i).getD ⟨0, 0⟩)) := by
  intro indices
  induction indices with
  | nil => intro cameras T _; simp [getSubRigLoop]
  | cons i rest ih =>
    intro cameras T h
    have hi := h i (List.mem_cons_self i rest)
    have hc : rig.cameras_.get? i = some (rig.cameras_.get ⟨i, hi.1⟩) := List.get?_eq_get hi.1
    have hT : rig.T_C_B_.get? i = some (rig.T_C_B_.get ⟨i, hi.2⟩) := List.get?_eq_get hi.2
    rw [getSubRigLoop, (atShared_ret_iff rig i _).mpr hc, T_C_B_of_get? rig i _ hT]
    simp only [Outcome.bind]
    rw [ih _ _ (fun j hj => h j (List.mem_cons_of_mem i hj))]
    simp only [List.map_cons, hc, hT, Option.getD_some, List.append_assoc, List.singleton_append]

theorem getSubRig_congr (ext : Externals α) (p1 p2 : CameraRig α) (hT : p1.T_C_B_ = p2.T_C_B_)
    (hc : p1.cameras_ = p2.cameras_) (indices : List Nat) (label : String) :
    p1.getSubRig ext indices label = p2.getSubRig ext indices label := by
  unfold CameraRig.getSubRig
  rw [getSubRigLoop_congr p1 p2 hT hc]

/-- The sub-rig of a valid rig over in-range indices is the rig constructed, with the default
thresholds, from the parent's handles and extrinsics at these indices. -/
theorem getSubRig_eq_construct (ext : Externals α) (rig : CameraRig α) (indices : List Nat)
    (label : String) (hv : rig.Valid) (hidx : ∀ i ∈ indices, i < rig.size) :
    rig.getSubRig ext indices label =
      CameraRig.construct ext (indices.map (fun i => (rig.T_C_B_.get? i).getD ⟨0, 0⟩))
        (indices.map (fun i => (rig.cameras_.get? i).getD none)) label
        ext.default_stereo_min_fov_overlap ext.default_stereo_min_baseline := by
  unfold CameraRig.getSubRig
  rw [getSubRigLoop_eq rig indices [] [] (fun i hi => ⟨hidx i hi, by rw [hv.1]; exact hidx i hi⟩)]
  simp [Outcome.bind]

theorem rig2_valid (d : ℚ) : (rig2 d).Valid := by
  refine ⟨rfl, ?_⟩
  intro c hc
  simp [rig2] at hc
  rcases hc with rfl | rfl <;> simp

/-- C5: for a valid rig and indices all below `size()`, a rig returned by
`getSubRig(indices, label)` has size `|indices|` and the given label, its `k`-th camera handle
is the parent's handle at `indices[k]` (the same handle) and its `k`-th extrinsic is the
parent's `T_C_B(indices[k])`, so order and repetitions of the indices are kept; and with fewer
than `2 ^ 32` indices `getSubRig` does return a rig. -/
theorem getSubRig_spec (ext : Externals α) (rig : CameraRig α) (camera_indices : List Nat)
    (label : String) (hv : rig.Valid) (hidx : ∀ i ∈ camera_indices, i < rig.size) :
    (∀ sub, rig.getSubRig ext camera_indices label = .ret sub →
      sub.size = camera_indices.length ∧ sub.label = label ∧
      ∀ k i, camera_indices.get? k = some i →
        (∃ c, rig.atShared i = .ret c ∧ sub.atShared k = .ret c) ∧
        (∃ T, rig.T_C_B i = .ret T ∧ sub.T_C_B k = .ret T)) ∧
    (camera_indices.length < 2 ^ 32 →
      ∃ sub, rig.getSubRig ext camera_indices label = .ret sub) := by
  constructor
  · intro sub hsub
    rw [getSubRig_eq_construct ext rig camera_indices label hv hidx] at hsub
    obtain ⟨hsT, hsc, hsl, _, _, _, _⟩ := construct_ret ext _ _ label _ _ sub hsub
    refine ⟨by unfold CameraRig.size; rw [hsc, List.length_map], hsl, ?_⟩
    intro k i hk
    have hi : i < rig.size := hidx i (List.get?_mem hk)
    have hiC : i < rig.cameras_.length := hi
    have hiT : i < rig.T_C_B_.length := by rw [hv.1]; exact hi
    have hc : rig.cameras_.get? i = some (rig.cameras_.get ⟨i, hiC⟩) := List.get?_eq_get hiC
    have hT : rig.T_C_B_.get? i = some (rig.T_C_B_.get ⟨i, hiT⟩) := List.get?_eq_get hiT
    refine ⟨⟨_, (atShared_ret_iff rig i _).mpr hc, ?_⟩, ⟨_, T_C_B_of_get? rig i _ hT, ?_⟩⟩
    · rw [atShared_ret_iff, hsc]
      rw [List.get?_eq_getElem?] at hk hc
      simp only [List.get?_eq_getElem?, List.getElem?_map, hk, Option.map_some', hc,
        Option.getD_some]
    · rw [T_C_B_ret_iff, hsT]
      rw [List.get?_eq_getElem?] at hk hT
      simp only [List.get?_eq_getElem?, List.getElem?_map, hk, Option.map_some', hT,
        Option.getD_some]
  · intro hlen
    rw [getSubRig_eq_construct ext rig camera_indices label hv hidx,
      construct_eq ext _ _ label _ _ (by simp)
        (subRig_cameras_ne_none rig camera_indices hv hidx) (by simpa using hlen)]
    exact ⟨_, rfl⟩

/-- The sub-rig of the two-camera rig over the indices `[1, 0, 1]` has three cameras, the
parent's cameras `1`, `0`, `1` in this order. -/
theorem getSubRig_spec_witness :
    (rig2 (3 / 25)).Valid ∧ (∀ i ∈ [1, 0, 1], i < (rig2 (3 / 25)).size) ∧
    [1, 0, 1].length < 2 ^ 32 ∧
    ∃ sub, (rig2 (3 / 25)).getSubRig extQ [1, 0, 1] "sub" = .ret sub ∧ sub.size = 3 ∧
      sub.label = "sub" ∧ sub.atShared 0 = .ret (some 1) ∧ sub.atShared 1 = .ret (some 0) ∧
      sub.atShared 2 = .ret (some 1) := by
  have hidx : ∀ i ∈ [1, 0, 1], i < (rig2 (3 / 25)).size := by
    intro i hi
    rw [rig2_size]
    simp at hi
    omega
  have hlen : [1, 0, 1].length < 2 ^ 32 := by norm_num
  have hthm := getSubRig_spec extQ (rig2 (3 / 25)) [1, 0, 1] "sub" (rig2_valid _) hidx
  obtain ⟨sub, hs⟩ := hthm.2 hlen
  obtain ⟨hsz, hl, hk⟩ := hthm.1 sub hs
  refine ⟨rig2_valid _, hidx, hlen, sub, hs, hsz, hl, ?_, ?_, ?_⟩
  · obtain ⟨c, hc, hsub⟩ := (hk 0 1 rfl).1
    rw [hsub, ← hc]
    rfl
  · obtain ⟨c, hc, hsub⟩ := (hk 1 0 rfl).1
    rw [hsub, ← hc]
    rfl
  · obtain ⟨c, hc, hsub⟩ := (hk 2 1 rfl).1
    rw [hsub, ← hc]
    rfl

/-- C6: for a valid rig of size at least one, `getSubRig([0], label)` returns a rig of size one
with no stereo pairs; and every rig the constructor returns with size at most one has no stereo
pairs, the identification being run only when `size() > 1`. -/
theorem getSubRig_single_camera (ext : Externals α) :
    (∀ (rig : CameraRig α) (label : String), rig.Valid → rig.size ≥ 1 →
      ∃ sub, rig.getSubRig ext [0] label = .ret sub ∧ sub.size = 1 ∧ sub.stereoPairs = []) ∧
    (∀ (T_C_B : List (Transformation α)) (cameras : List CameraPtr) (label : String) (f m : α)
      (rig : CameraRig α), CameraRig.construct ext T_C_B cameras label f m = .ret rig →
      rig.size ≤ 1 → rig.stereoPairs = []) := by
  constructor
  · intro rig label hv hsize
    have hidx : ∀ i ∈ [0], i < rig.size := by
      intro i hi
      simp at hi
      omega
    rw [getSubRig_eq_construct ext rig [0] label hv hidx,
      construct_eq ext _ _ label _ _ (by simp) (subRig_cameras_ne_none rig [0] hv hidx)
        (by norm_num)]
    exact ⟨_, rfl, rfl, by simp [CameraRig.stereoPairs]⟩
  · intro T_C_B cameras label f m rig h hsize
    obtain ⟨_, hc, _, _, _, hle, _⟩ := construct_ret ext T_C_B cameras label f m rig h
    have : cameras.length ≤ 1 := by
      have : rig.size = cameras.length := by unfold CameraRig.size; rw [hc]
      omega
    exact hle this

/-- The single-camera sub-rig of the two-camera rig has size one and no stereo pairs. -/
theorem getSubRig_single_camera_witness :
    (rig2 (3 / 25)).Valid ∧ (rig2 (3 / 25)).size ≥ 1 ∧
    ∃ sub, (rig2 (3 / 25)).getSubRig extQ [0] "single" = .ret sub ∧ sub.size = 1 ∧
      sub.stereoPairs = [] :=
  ⟨rig2_valid _, by rw [rig2_size]; norm_num,
    (getSubRig_single_camera extQ).1 (rig2 (3 / 25)) "single" (rig2_valid _)
      (by rw [rig2_size]; norm_num)⟩

theorem construct_rig2 (d f m : ℚ) (hd : 0 ≤ d) :
    CameraRig.construct extQ (extrinsics2 d) [some 0, some 1] "stereo" f m =
      .ret ⟨extrinsics2 d, [some 0, some 1], "stereo",
        if f < 3 / 5 ∧ m < d then [(0, 1)] else []⟩ := by
  have hid := identify_rig2 d f m hd
  unfold rig2 at hid
  unfold CameraRig.construct
  simp only [extrinsics2, List.length_cons, List.length_nil, ne_eq, not_true_eq_false, if_false,
    List.any_cons, Option.isNone_some, List.any_nil, Bool.or_self, Bool.false_eq_true,
    CameraRig.size, gt_iff_lt, Nat.lt_add_one, Nat.reduceAdd, Nat.one_lt_ofNat, if_true]
  unfold extrinsics2 at hid
  rw [hid]
  by_cases hc : f < 3 / 5 ∧ m < d
  · rw [if_pos hc, if_pos hc]
    rfl
  · rw [if_neg hc, if_neg hc]
    rfl

/-- C10: the stereo pairs of a sub-rig do not depend on the thresholds its parent was
constructed with.  Two parents constructed from the same extrinsics and cameras, whatever their
labels and thresholds, give the same result of `getSubRig` for every index list and label; the
stereo pairs of a sub-rig of more than one camera are those identified with the constructor's
default thresholds; and the sub-rig over all indices in order can differ from its parent in its
stereo pairs. -/
theorem getSubRig_ignores_parent_thresholds (ext : Externals α)
    (T_C_B : List (Transformation α)) (cameras : List CameraPtr) (label1 label2 : String)
    (f1 m1 f2 m2 : α) (p1 p2 : CameraRig α)
    (h1 : CameraRig.construct ext T_C_B cameras label1 f1 m1 = .ret p1)
    (h2 : CameraRig.construct ext T_C_B cameras label2 f2 m2 = .ret p2) :
    (∀ (indices : List Nat) (label : String),
      p1.getSubRig ext indices label = p2.getSubRig ext indices label ∧
      ∀ sub, p1.getSubRig ext indices label = .ret sub →
        (sub.size > 1 →
          identifyStereoPairsInRig ext ⟨sub.T_C_B_, sub.cameras_, label, []⟩
            ext.default_stereo_min_fov_overlap ext.default_stereo_min_baseline =
              .ret sub.stereoPairs) ∧
        (sub.size ≤ 1 → sub.stereoPairs = [])) ∧
    ∃ (parent sub : CameraRig ℚ),
      CameraRig.construct extQ (extrinsics2 (3 / 25)) [some 0, some 1] "stereo" (1 / 2) (1 / 10) =
        .ret parent ∧
      parent.getSubRig extQ [0, 1] parent.label = .ret sub ∧
      sub.T_C_B_ = parent.T_C_B_ ∧ sub.cameras_ = parent.cameras_ ∧
      sub.stereoPairs ≠ parent.stereoPairs := by
  obtain ⟨hT1, hc1, _, _, _, _, _⟩ := construct_ret ext T_C_B cameras label1 f1 m1 p1 h1
  obtain ⟨hT2, hc2, _, _, _, _, _⟩ := construct_ret ext T_C_B cameras label2 f2 m2 p2 h2
  refine ⟨fun indices label => ⟨getSubRig_congr ext p1 p2 (hT1.trans hT2.symm)
    (hc1.trans hc2.symm) indices label, ?_⟩, ?_⟩
  · intro sub hsub
    unfold CameraRig.getSubRig at hsub
    cases hloop : getSubRigLoop p1 indices [] [] with
    | ret ct =>
      rw [hloop] at hsub
      simp only [Outcome.bind] at hsub
      obtain ⟨hT, hc, _, _, _, hle, hgt⟩ := construct_ret ext ct.2 ct.1 label _ _ sub hsub
      have hs : sub.size = ct.1.length := by unfold CameraRig.size; rw [hc]
      refine ⟨fun hsize => ?_, fun hsize => hle (by omega)⟩
      rw [hT, hc]
      exact hgt (by omega)
    | thrown w => rw [hloop] at hsub; exact Outcome.noConfusion hsub
    | fatal msg => rw [hloop] at hsub; exact Outcome.noConfusion hsub
    | hang => rw [hloop] at hsub; exact Outcome.noConfusion hsub
  · refine ⟨_, ⟨extrinsics2 (3 / 25), [some 0, some 1], "stereo",
        if (7 / 10 : ℚ) < 3 / 5 ∧ (1 / 10 : ℚ) < 3 / 25 then [(0, 1)] else []⟩,
      construct_rig2 (3 / 25) (1 / 2) (1 / 10) (by norm_num), ?_, rfl, rfl, ?_⟩
    · have hv : (⟨extrinsics2 (3 / 25), [some 0, some 1], "stereo",
          if (1 / 2 : ℚ) < 3 / 5 ∧ (1 / 10 : ℚ) < 3 / 25 then [(0, 1)] else []⟩ :
          CameraRig ℚ).Valid := rig2_valid (3 / 25)
      rw [getSubRig_eq_construct extQ _ [0, 1] _ hv (by
        intro i hi
        simp at hi
        rcases hi with rfl | rfl <;> simp [CameraRig.size])]
      exact construct_rig2 (3 / 25) (7 / 10) (1 / 10) (by norm_num)
    · norm_num [CameraRig.stereoPairs]

/-- Two parents over the two-camera extrinsics, one with thresholds `(0.5, 0.1)` and one with
`(0.9, 0.2)`, have different stereo pairs and equal sub-rigs. -/
theorem getSubRig_ignores_parent_thresholds_witness :
    ∃ p1 p2 : CameraRig ℚ,
      CameraRig.construct extQ (extrinsics2 (3 / 25)) [some 0, some 1] "stereo" (1 / 2) (1 / 10) =
        .ret p1 ∧
      CameraRig.construct extQ (extrinsics2 (3 / 25)) [some 0, some 1] "stereo" (9 / 10) (1 / 5) =
        .ret p2 ∧
      p1.stereoPairs = [(0, 1)] ∧ p2.stereoPairs = [] ∧
      p1.getSubRig extQ [0, 1] "sub" = p2.getSubRig extQ [0, 1] "sub" := by
  have h1 := construct_rig2 (3 / 25) (1 / 2) (1 / 10) (by norm_num)
  have h2 := construct_rig2 (3 / 25) (9 / 10) (1 / 5) (by norm_num)
  refine ⟨_, _, h1, h2, ?_, ?_, ?_⟩
  · norm_num [CameraRig.stereoPairs]
  · norm_num [CameraRig.stereoPairs]
  · exact ((getSubRig_ignores_parent_thresholds extQ _ _ _ _ _ _ _ _ _ _ h1 h2).1
      [0, 1] "sub").1

end SubRig

/-! ## Loading a rig from a calibration file -/

/-- C8, as stated, fails: when the calibration file is missing, `cameraRigFromYaml` does not
return a null rig; the `CHECK` on `fileExists` aborts the process and nothing is logged with
`LOG(ERROR)`. -/
theorem cameraRigFromYaml_missing_file_aborts :
    noFiles.fileExists "missing.yaml" = false ∧
    cameraRigFromYaml noFiles "missing.yaml" =
      ([], .fatal "File does not exist: missing.yaml") ∧
    (cameraRigFromYaml noFiles "missing.yaml").2 ≠ .ret none := by
  refine ⟨rfl, rfl, ?_⟩
  intro h
  have h2 : (cameraRigFromYaml noFiles "missing.yaml").2 =
      .fatal "File does not exist: missing.yaml" := rfl
  rw [h2] at h
  exact Outcome.noConfusion h

/-- C8, amended: when the calibration file exists and reading it or converting it to a rig
throws a `std::exception`, `cameraRigFromYaml` logs one diagnostic naming the file and the
exception and returns the null pointer, without aborting; when the file does not exist, the
function aborts on its `CHECK` with the message `File does not exist`. -/
theorem cameraRigFromYaml_failure {Node α : Type} (y : YamlExternals Node α)
    (yaml_file : String) :
    (∀ what, y.fileExists yaml_file = true →
      (y.LoadFile yaml_file = .thrown what ∨
        ∃ doc, y.LoadFile yaml_file = .ret doc ∧ y.asCameraRigPtr doc = .thrown what) →
      cameraRigFromYaml y yaml_file = ([loadDiagnostic yaml_file what], .ret none)) ∧
    (y.fileExists yaml_file = false →
      cameraRigFromYaml y yaml_file = ([], .fatal ("File does not exist: " ++ yaml_file))) := by
  constructor
  · intro what hex hfail
    have hb : (y.LoadFile yaml_file).bind y.asCameraRigPtr = .thrown what := by
      rcases hfail with h | ⟨doc, h, hd⟩
      · rw [h]; rfl
      · rw [h]; exact hd
    unfold cameraRigFromYaml
    rw [if_pos hex, hb]
  · intro hex
    unfold cameraRigFromYaml
    rw [hex]
    rfl

/-- An existing file that does not parse gives the null pointer and one logged line; a missing
file gives an abort. -/
theorem cameraRigFromYaml_failure_witness :
    badFiles.fileExists "rig.yaml" = true ∧ badFiles.LoadFile "rig.yaml" = .thrown "bad file" ∧
    cameraRigFromYaml badFiles "rig.yaml" =
      (["Cannot load CameraRig from file:rig.yaml\nbad file"], .ret none) ∧
    noFiles.fileExists "rig.yaml" = false ∧
    cameraRigFromYaml noFiles "rig.yaml" = ([], .fatal "File does not exist: rig.yaml") :=
  ⟨rfl, rfl,
    (cameraRigFromYaml_failure badFiles "rig.yaml").1 "bad file" rfl (Or.inl rfl),
    rfl, (cameraRigFromYaml_failure noFiles "rig.yaml").2 rfl⟩

/-! ## The bound on the active landmarks -/

section SimulatorLemmas

variable {τ P Pixel : Type}

/-- Sampling never takes the number of active landmarks above `max_num_landmarks`. -/
theorem sampleLandmarks_length_le (accept : P → Bool) (max_num_landmarks : Nat) :
    ∀ (samples : List P) (active : List (Landmark P)) (next_id : Nat),
      active.length ≤ max_num_landmarks →
      (sampleLandmarks accept max_num_landmarks samples active next_id).1.length ≤
        max_num_landmarks := by
  intro samples
  induction samples with
  | nil => intro active next_id h; exact h
  | cons p rest ih =>
    intro active next_id h
    unfold sampleLandmarks
    split
    · exact h
    · rename_i hlt
      split
      · exact ih _ _ (by rw [List.length_append, List.length_singleton]; omega)
      · exact ih _ _ h

theorem initializeMap_bounded (env : SimExternals τ P Pixel) (sim : CameraSimulator P)
    (samples : List P) (h : sim.active_landmarks.length ≤ sim.max_num_landmarks) :
    (sim.initializeMap env samples).active_landmarks.length ≤ sim.max_num_landmarks ∧
    (sim.initializeMap env samples).max_num_landmarks = sim.max_num_landmarks ∧
    (sim.initializeMap env samples).ready = true :=
  ⟨sampleLandmarks_length_le _ _ samples _ _ h, rfl, rfl⟩

theorem getMeasurements_bounded (env : SimExternals τ P Pixel) (sim : CameraSimulator P)
    (time : τ) (samples : List P) (h : sim.active_landmarks.length ≤ sim.max_num_landmarks)
    (hready : sim.ready = true) :
    ∃ m sim', sim.getMeasurements env time samples = some (m, sim') ∧
      sim'.active_landmarks.length ≤ sim.max_num_landmarks ∧
      sim'.max_num_landmarks = sim.max_num_landmarks ∧ sim'.ready = true := by
  unfold CameraSimulator.getMeasurements
  rw [if_pos hready]
  refine ⟨_, _, rfl, ?_, rfl, hready⟩
  exact sampleLandmarks_length_le _ _ samples _ _
    (le_trans (List.length_filter_le _ _) h)

theorem runMeasurements_bounded (env : SimExternals τ P Pixel) :
    ∀ (calls : List (τ × List P)) (sim : CameraSimulator P),
      sim.active_landmarks.length ≤ sim.max_num_landmarks → sim.ready = true →
      ∃ states, runMeasurements env sim calls = some states ∧ states.length = calls.length ∧
        ∀ s ∈ states, s.active_landmarks.length ≤ sim.max_num_landmarks := by
  intro calls
  induction calls with
  | nil => intro sim _ _; exact ⟨[], rfl, rfl, by simp⟩
  | cons call rest ih =>
    intro sim h hready
    obtain ⟨time, samples⟩ := call
    obtain ⟨m, sim', hget, hb, hmax, hr⟩ := getMeasurements_bounded env sim time samples h hready
    obtain ⟨states, hrun, hlen, hall⟩ := ih sim' (by rw [hmax]; exact hb) hr
    refine ⟨sim' :: states, ?_, by simp [hlen], ?_⟩
    · unfold runMeasurements
      rw [hget]
      simp only [hrun, Option.map_some']
    · intro s hs
      rcases List.mem_cons.mp hs with rfl | hs
      · exact hb
      · rw [← hmax]; exact hall s hs

/-- C9: a simulator configured with `max_num_landmarks = N` has at most `N` active landmarks
after `initializeMap()`, and after every call of any session of `getMeasurements` calls with
non-decreasing times, each of which returns; the bound is an invariant of the simulator state:
`initializeMap` establishes it and every returning `getMeasurements` keeps it. -/
theorem active_landmarks_bounded [Preorder τ] (env : SimExternals τ P Pixel) (N : Nat)
    (samples0 : List P) (calls : List (τ × List P))
    (_hmono : (calls.map Prod.fst).Pairwise (· ≤ ·)) :
    ((CameraSimulator.create N).initializeMap env samples0).active_landmarks.length ≤ N ∧
    (∃ states, runMeasurements env ((CameraSimulator.create N).initializeMap env samples0)
        calls = some states ∧ states.length = calls.length ∧
      ∀ s ∈ states, s.active_landmarks.length ≤ N) ∧
    (∀ (sim sim' : CameraSimulator P) (time : τ) (samples : List P)
      (m : List (List (Pixel × Nat))),
      sim.active_landmarks.length ≤ sim.max_num_landmarks →
      sim.getMeasurements env time samples = some (m, sim') →
      sim'.active_landmarks.length ≤ sim.max_num_landmarks ∧
        sim'.max_num_landmarks = sim.max_num_landmarks) := by
  have h0 : (CameraSimulator.create N : CameraSimulator P).active_landmarks.length ≤
      (CameraSimulator.create N : CameraSimulator P).max_num_landmarks := Nat.zero_le _
  obtain ⟨hb, hmax, hr⟩ := initializeMap_bounded env (CameraSimulator.create N) samples0 h0
  refine ⟨hb, ?_, ?_⟩
  · obtain ⟨states, hrun, hlen, hall⟩ := runMeasurements_bounded env calls
      ((CameraSimulator.create N).initializeMap env samples0) (by rw [hmax]; exact hb) hr
    exact ⟨states, hrun, hlen, fun s hs => by
      have := hall s hs
      rw [hmax] at this
      exact this⟩
  · intro sim sim' time samples m h hget
    unfold CameraSimulator.getMeasurements at hget
    split at hget
    · simp only [Option.some.injEq, Prod.mk.injEq] at hget
      obtain ⟨_, rfl⟩ := hget
      exact ⟨sampleLandmarks_length_le _ _ samples _ _
        (le_trans (List.length_filter_le _ _) h), rfl⟩
    · exact Option.noConfusion hget

/-- With `N = 50`, one camera that sees the even numbers and one hundred calls at the times
`0, ..., 99`, at most 50 landmarks are active after `initializeMap` and after every call. -/
theorem active_landmarks_bounded_witness :
    (hundredCalls.map Prod.fst).Pairwise (· ≤ ·) ∧
    ((CameraSimulator.create 50).initializeMap evenWorld (List.range 200)).active_landmarks.length
      ≤ 50 ∧
    ∃ states, runMeasurements evenWorld
        ((CameraSimulator.create 50).initializeMap evenWorld (List.range 200)) hundredCalls =
          some states ∧ states.length = 100 ∧
      ∀ s ∈ states, s.active_landmarks.length ≤ 50 := by
  have hmono : (hundredCalls.map Prod.fst).Pairwise (· ≤ ·) := by
    have : hundredCalls.map Prod.fst = List.range 100 := by
      unfold hundredCalls
      rw [List.map_map]
      exact List.map_id _
    rw [this]
    exact List.pairwise_le_range 100
  obtain ⟨h1, ⟨states, hrun, hlen, hall⟩, _⟩ :=
    active_landmarks_bounded evenWorld 50 (List.range 200) hundredCalls hmono
  refine ⟨hmono, h1, states, hrun, ?_, hall⟩
  rw [hlen]
  simp [hundredCalls]

end SimulatorLemmas

end ze
